import Mathlib

/-!
Verification development for the miragend reverse-proxy content-transformation
engine (Rust). Shallow embedding of the character-remapping codec, the mapping
loader, the HTML/JSON walkers, the fetch-classify pipeline and the patch-content
loader, with theorems checking the natural-language specification against them.

Conventions of the embedding:
- Machine integers become `Nat` (the only wrap-relevant operation, u32 overflow
  in `from_str_radix`, is modelled by an explicit `2 ^ 32` bound).
- The random source is modelled by an explicit draw argument (`draw : Nat`): the
  Rust `rng.gen_range(start..=end)` draws uniformly from the inclusive range, so
  any `draw` is mapped into the range by `start + draw % (stop - start + 1)`;
  a call on an empty range (`start > stop`) panics in Rust, modelled as `none`.
- Fallible code returns `Option`; `none` models a Rust panic or `Err`.
- The interior-mutable rcdom tree becomes the pure inductive `HNode`; the
  in-place walkers become tree-to-tree functions.
-/

/- ===== src/src/obfuscation.rs : character mapper and config ===== -/

structure CharactersMapper where
  source_start : Char
  source_end : Char
  target_start : Char
  target_end : Char
  comment : String

structure ObfuscatorConfig where
  mappers : List CharactersMapper

/- CSV record with the four code points still as hex strings
   (src/src/obfuscation.rs, struct Record). -/
structure Record where
  source_start : String
  source_end : String
  target_start : String
  target_end : String
  comment : String

/- Models one hex digit of u32::from_str_radix(value, 16). -/
def hex_digit (c : Char) : Option Nat :=
  if '0' ≤ c ∧ c ≤ '9' then some (c.toNat - '0'.toNat)
  else if 'a' ≤ c ∧ c ≤ 'f' then some (c.toNat - 'a'.toNat + 10)
  else if 'A' ≤ c ∧ c ≤ 'F' then some (c.toNat - 'A'.toNat + 10)
  else none

def parse_hex_go : List Char → Nat → Option Nat
  | [], acc => some acc
  | c :: cs, acc =>
    match hex_digit c with
    | none => none
    | some d =>
      let v := acc * 16 + d
      if v < 2 ^ 32 then parse_hex_go cs v else none

/- Models u32::from_str_radix(value, 16) on plain hex-digit strings: the empty
   string, an invalid digit, and u32 overflow are errors. (The optional leading
   sign accepted by the Rust primitive is irrelevant for code-point fields.) -/
def parse_hex_u32 (s : String) : Option Nat :=
  match s.data with
  | [] => none
  | l => parse_hex_go l 0

/- Models char::from_u32: valid Unicode scalar values only. -/
def char_from_u32 (v : Nat) : Option Char :=
  if h : v.isValidChar then some (Char.ofNatAux v h) else none

/- Models the conver_field_to_char closure in TryFrom<Record> for
   CharactersMapper (src/src/obfuscation.rs). -/
def conver_field_to_char (value : String) : Option Char :=
  (parse_hex_u32 value).bind char_from_u32

/- TryFrom<Record> for CharactersMapper: each of the four fields is parsed as a
   hex code point; any failure rejects the record. No ordering of the ranges is
   validated. -/
def CharactersMapper.tryFrom (r : Record) : Option CharactersMapper :=
  (conver_field_to_char r.source_start).bind fun ss =>
  (conver_field_to_char r.source_end).bind fun se =>
  (conver_field_to_char r.target_start).bind fun ts =>
  (conver_field_to_char r.target_end).bind fun te =>
  some ⟨ss, se, ts, te, r.comment⟩

/- ObfuscatorConfig::load_from_csv, from the point where the CSV reader has
   produced the records (CSV tokenization itself is an external collaborator;
   malformed rows are already dropped by it exactly as records failing
   conversion are dropped here): records that fail TryFrom are skipped. -/
def load_from_csv (records : List Record) : ObfuscatorConfig :=
  ⟨records.filterMap CharactersMapper.tryFrom⟩

/- ===== src/src/obfuscation.rs : the codec ===== -/

/- random_unicode_char(start, end): rng.gen_range(start..=end) then
   char::from_u32(v).unwrap_or('?'). gen_range panics on an empty range
   (start > end): modelled as `none`. A valid draw landing on a non-scalar
   code point falls back to '?'. -/
def random_unicode_char (start stop draw : Nat) : Option Char :=
  if start ≤ stop then
    let v := start + draw % (stop - start + 1)
    some (if h : v.isValidChar then Char.ofNatAux v h else '?')
  else none

/- The mapper loop of random_char: Rust tests
   `(mapper.source_start..mapper.source_end).contains(&input)`, a half-open
   range: source_start ≤ input ∧ input < source_end. First match wins. -/
def random_char_mappers : List CharactersMapper → Char → Nat → Option Char
  | [], input, _ => some input
  | m :: rest, input, draw =>
    if m.source_start ≤ input ∧ input < m.source_end then
      random_unicode_char m.target_start.toNat m.target_end.toNat draw
    else random_char_mappers rest input draw

/- random_char(config, input) (src/src/obfuscation.rs lines 85-93). -/
def random_char (config : ObfuscatorConfig) (input : Char) (draw : Nat) : Option Char :=
  random_char_mappers config.mappers input draw

/- Obfuscator for strings / Tendril: self.chars().map(|c| random_char(config, c)).collect().
   Each character consumes a fresh draw; `draws i` is the draw used at
   character index `i`. A panic in any single draw aborts the whole map. -/
def obfuscated_chars (config : ObfuscatorConfig) (draws : Nat → Nat) :
    List Char → Nat → Option (List Char)
  | [], _ => some []
  | c :: cs, i =>
    (random_char config c (draws i)).bind fun c2 =>
      (obfuscated_chars config draws cs (i + 1)).map (c2 :: ·)

/- ===== Claims about the codec ===== -/

/-- Claim C2, evidence against it as stated: the source-range test in
random_char uses the half-open Rust range `source_start..source_end`, so an
input equal to the source range's upper endpoint matches no mapper and is
returned unchanged instead of being mapped into the target range. With the
single mapper source ['a','b'], target ['x','y'], the input 'b' comes back as
'b', which does not lie in the target range ['x','y']. -/
theorem random_char_returns_source_end_unchanged :
    random_char ⟨[⟨'a', 'b', 'x', 'y', "demo"⟩]⟩ 'b' 0 = some 'b' ∧
    ¬ ('x' ≤ 'b' ∧ 'b' ≤ 'y') := by
  exact ⟨rfl, by decide⟩

/-- Claim C6, evidence against the code: the record stage of
ObfuscatorConfig::load_from_csv accepts a row whose target_start (0x62 = 'b')
exceeds its target_end (0x61 = 'a') — no ordering is validated — and on an
input inside the source range the codec then calls
rng.gen_range(0x62..=0x61) on an empty range, which panics in Rust
(modelled as `none`) instead of falling back to the '?' placeholder. -/
theorem load_from_csv_accepts_reversed_target_and_random_char_panics :
    load_from_csv [⟨"0061", "007a", "0062", "0061", "demo"⟩] =
      ⟨[⟨'a', 'z', 'b', 'a', "demo"⟩]⟩ ∧
    random_char (load_from_csv [⟨"0061", "007a", "0062", "0061", "demo"⟩]) 'a' 0 = none := by
  exact ⟨rfl, rfl⟩

/-- Claim C7: a character outside every configured source range (inclusive on
both ends, hence a fortiori outside the half-open range the code tests) is
returned unchanged by the codec for every draw; consequently with an empty
mapping table the string obfuscator is the identity on every character list. -/
theorem random_char_identity_outside_source_ranges :
    (∀ (config : ObfuscatorConfig) (c : Char) (draw : Nat),
      (∀ m ∈ config.mappers, ¬ (m.source_start ≤ c ∧ c ≤ m.source_end)) →
      random_char config c draw = some c) ∧
    (∀ (draws : Nat → Nat) (cs : List Char) (i : Nat),
      obfuscated_chars ⟨[]⟩ draws cs i = some cs) := by
  constructor
  · rintro ⟨mappers⟩ c draw h
    simp only [random_char] at *
    induction mappers with
    | nil => rfl
    | cons m rest ih =>
      have hm := h m (by simp)
      rw [random_char_mappers, if_neg]
      · exact ih fun m' hm' => h m' (by simp [hm'])
      · rintro ⟨h1, h2⟩
        exact hm ⟨h1, le_of_lt h2⟩
  · intro draws cs
    induction cs with
    | nil => intro i; rfl
    | cons c cs ih =>
      intro i
      simp [obfuscated_chars, random_char, random_char_mappers, ih]

/-- Witness for C7 at concrete inputs: 'z' lies outside the single source
range ['a','b'] and passes through unchanged; the empty configuration leaves
the list ['h','i'] unchanged. -/
theorem random_char_identity_outside_source_ranges_witness :
    random_char ⟨[⟨'a', 'b', 'x', 'y', "w"⟩]⟩ 'z' 5 = some 'z' ∧
    obfuscated_chars ⟨[]⟩ (fun _ => 0) ['h', 'i'] 0 = some ['h', 'i'] := by
  exact ⟨random_char_identity_outside_source_ranges.1 _ 'z' 5 (by decide),
    random_char_identity_outside_source_ranges.2 _ _ 0⟩

/- ===== src/src/obfuscation.rs : Obfuscator for serde_json::Value ===== -/

/- serde_json::Value. Number payloads are never touched by the walker; an Int
   stands in for the arbitrary-precision number. Object entries keep their
   order (serde_json map iteration order). -/
inductive JValue where
  | str (s : String)
  | num (n : Int)
  | bool (b : Bool)
  | null
  | arr (xs : List JValue)
  | obj (kvs : List (String × JValue))

/- Value::obfuscate / Map::obfuscate (src/src/obfuscation.rs lines 108-151):
   string leaves are replaced by their obfuscation, objects recurse into the
   values (keys untouched), arrays recurse elementwise, other scalars are left
   unchanged. The string obfuscator (String::obfuscated with its random draws)
   is abstracted as `f`. -/
mutual

def obfuscate_value (f : String → String) : JValue → JValue
  | .str s => .str (f s)
  | .num n => .num n
  | .bool b => .bool b
  | .null => .null
  | .arr xs => .arr (obfuscate_value_list f xs)
  | .obj kvs => .obj (obfuscate_value_map f kvs)

def obfuscate_value_list (f : String → String) : List JValue → List JValue
  | [] => []
  | v :: vs => obfuscate_value f v :: obfuscate_value_list f vs

def obfuscate_value_map (f : String → String) : List (String × JValue) → List (String × JValue)
  | [] => []
  | (k, v) :: kvs => (k, obfuscate_value f v) :: obfuscate_value_map f kvs

end

/- The relation "w is v with every string leaf passed through f and nothing
   else changed": same shape, same keys, same non-string scalars. -/
inductive StringsMapped (f : String → String) : JValue → JValue → Prop where
  | str (s : String) : StringsMapped f (.str s) (.str (f s))
  | num (n : Int) : StringsMapped f (.num n) (.num n)
  | bool (b : Bool) : StringsMapped f (.bool b) (.bool b)
  | null : StringsMapped f .null .null
  | arr {xs ys : List JValue} (h : List.Forall₂ (StringsMapped f) xs ys) :
      StringsMapped f (.arr xs) (.arr ys)
  | obj {kvs kws : List (String × JValue)}
      (hk : kvs.map Prod.fst = kws.map Prod.fst)
      (hv : List.Forall₂ (StringsMapped f) (kvs.map Prod.snd) (kws.map Prod.snd)) :
      StringsMapped f (.obj kvs) (.obj kws)

/- ===== src/src/fetching.rs : the fetch-classify pipeline ===== -/

/- The upstream content-type header as the pipeline sees it: absent, present
   but not convertible to a string (header.to_str() errors), or a string
   value. -/
inductive CTHeader where
  | missing
  | invalid
  | value (v : String)

/- The upstream response, reduced to the fields the pipeline reads. `body` is
   the outcome of resp.text(): `none` models a body-read failure. -/
structure UpstreamResp where
  status : Nat
  content_type : CTHeader
  body : Option String

/- The outcome of request::get: timeout, another transport error
   (RequestError::Reqwest), or a response. -/
inductive TransportResult where
  | timeout
  | failed
  | success (r : UpstreamResp)

inductive ContentTypeTag where
  | html
  | json
deriving DecidableEq

/- fetching::Loaded. Status codes are their numeric values: 504 GATEWAY_TIMEOUT,
   502 BAD_GATEWAY, 500 INTERNAL_SERVER_ERROR. -/
inductive Loaded where
  | special (code : Nat)
  | forward (status : Nat) (ct : ContentTypeTag) (body : String)

/- Models str::starts_with character by character. -/
def starts_with_chars : List Char → List Char → Bool
  | _, [] => true
  | [], _ :: _ => false
  | c :: cs, p :: ps => c == p && starts_with_chars cs ps

def str_starts_with (s pre : String) : Bool :=
  starts_with_chars s.data pre.data

/- fetching::load (src/src/fetching.rs lines 23-77): map transport failures,
   classify the content type (absent ⇒ HTML, "text/html" prefix ⇒ HTML,
   "application/json" prefix ⇒ JSON, anything else or an unreadable header ⇒
   502), then read the body (failure ⇒ 502). -/
def load : TransportResult → Loaded
  | .timeout => .special 504
  | .failed => .special 502
  | .success r =>
    let read (ct : ContentTypeTag) : Loaded :=
      match r.body with
      | some b => .forward r.status ct b
      | none => .special 502
    match r.content_type with
    | .invalid => .special 502
    | .missing => read .html
    | .value v =>
      if str_starts_with v "text/html" then read .html
      else if str_starts_with v "application/json" then read .json
      else .special 502

/- The handler outcome (src/src/main.rs lines 87-143): a Special outcome is
   forwarded as its status; a Forward outcome answers with the upstream status
   when the transformation succeeds and with 500 when the transformation
   (parse or serialize) fails. The transformation result is `patched`. -/
def handler_status : Loaded → Option String → Nat
  | .special code, _ => code
  | .forward status _ _, some _ => status
  | .forward _ _ _, none => 500

inductive StrategyTag where
  | patch
  | obfuscation

/-- Modelled from the spec: the Forward+JSON arm of the strategy dispatcher
(spec section 4.8). The dispatcher of the current revision is not under src/
(src/src/main.rs is an earlier revision without JSON support, while
src/src/fetching.rs already classifies JSON). Patch passes the body through
unchanged; Obfuscation parses, runs the JSON walker, re-serializes; a parse or
serialize failure falls back to Special(InternalServerError). The JSON parser
and serializer are external collaborators, passed as `parse` and `ser`. -/
def dispatch_json (parse : String → Option JValue) (ser : JValue → Option String)
    (f : String → String) : StrategyTag → String → Except Nat String
  | .patch, body => .ok body
  | .obfuscation, body =>
    match parse body with
    | none => .error 500
    | some v =>
      match ser (obfuscate_value f v) with
      | none => .error 500
      | some out => .ok out

/- A content-type value starting with "application/json" cannot also start
   with "text/html" (the first characters already differ). -/
theorem starts_json_not_html (v : String)
    (h : str_starts_with v "application/json" = true) :
    str_starts_with v "text/html" = false := by
  unfold str_starts_with at *
  match hv : v.data with
  | [] => rw [hv] at h; simp [starts_with_chars] at h
  | c :: cs =>
    rw [hv] at h
    simp only [show ("application/json" : String).data =
      'a' :: "pplication/json".data from rfl, starts_with_chars, Bool.and_eq_true,
      beq_iff_eq] at h
    rw [h.1]
    rfl

/- Every string leaf is obfuscated and nothing else changes: the JSON walker
   realizes the StringsMapped relation, jointly over values, arrays and
   objects. -/
theorem obfuscate_value_strings_mapped (f : String → String) :
    (∀ v : JValue, StringsMapped f v (obfuscate_value f v)) ∧
    (∀ kvs : List (String × JValue),
      kvs.map Prod.fst = (obfuscate_value_map f kvs).map Prod.fst ∧
      List.Forall₂ (StringsMapped f) (kvs.map Prod.snd)
        ((obfuscate_value_map f kvs).map Prod.snd)) ∧
    (∀ xs : List JValue,
      List.Forall₂ (StringsMapped f) xs (obfuscate_value_list f xs)) := by
  apply obfuscate_value.mutual_induct f
  · intro s
    simp only [obfuscate_value]
    exact .str s
  · intro n
    simp only [obfuscate_value]
    exact .num n
  · intro b
    simp only [obfuscate_value]
    exact .bool b
  · simp only [obfuscate_value]
    exact .null
  · intro xs ih
    simp only [obfuscate_value]
    exact .arr ih
  · intro kvs ih
    simp only [obfuscate_value]
    exact .obj ih.1 ih.2
  · simp only [obfuscate_value_list]
    exact .nil
  · intro v vs ih1 ih2
    simp only [obfuscate_value_list]
    exact .cons ih1 ih2
  · simp only [obfuscate_value_map, List.map]
    exact ⟨trivial, .nil⟩
  · intro k v kvs ih1 ih2
    simp only [obfuscate_value_map, List.map]
    exact ⟨by rw [ih2.1], .cons ih1 ih2.2⟩

/-- Claim C3: a successful upstream response whose content-type starts with
"application/json" is classified as JSON and forwarded (not turned into
Special(BadGateway)); under the Obfuscation strategy a forwarded JSON body is
parsed, every string leaf is obfuscated by the JSON walker (StringsMapped
captures: same shape, same keys and non-string scalars, every string leaf
passed through the obfuscator), and the re-serialized result is returned. -/
theorem load_classifies_json_and_obfuscation_rewrites_leaves :
    (∀ (status : Nat) (bd : Option String) (v b : String),
      str_starts_with v "application/json" = true →
      bd = some b →
      load (.success ⟨status, .value v, bd⟩) = .forward status .json b) ∧
    (∀ (parse : String → Option JValue) (ser : JValue → Option String)
      (f : String → String) (body out : String) (jv : JValue),
      parse body = some jv → ser (obfuscate_value f jv) = some out →
      dispatch_json parse ser f .obfuscation body = .ok out) ∧
    (∀ (f : String → String) (v : JValue),
      StringsMapped f v (obfuscate_value f v)) := by
  refine ⟨?_, ?_, ?_⟩
  · intro status bd v b hjson hbody
    subst hbody
    simp [load, hjson, starts_json_not_html v hjson]
  · intro parse ser f body out jv hp hs
    simp [dispatch_json, hp, hs]
  · intro f v
    exact (obfuscate_value_strings_mapped f).1 v

/-- Witness for C3 at concrete inputs: a 200 response with content-type
"application/json; charset=utf-8" and body "[true]" is forwarded as JSON, and
the modelled dispatcher returns the re-serialized obfuscated value. -/
theorem load_classifies_json_witness :
    load (.success ⟨200, .value "application/json; charset=utf-8", some "[true]"⟩) =
      .forward 200 .json "[true]" ∧
    dispatch_json (fun _ => some (.arr [.bool true])) (fun _ => some "[false]")
      (fun _ => "x") .obfuscation "[true]" = .ok "[false]" ∧
    StringsMapped (fun _ => "x") (.str "hi")
      (obfuscate_value (fun _ => "x") (.str "hi")) := by
  exact ⟨load_classifies_json_and_obfuscation_rewrites_leaves.1 200 _ _ "[true]" rfl rfl,
    load_classifies_json_and_obfuscation_rewrites_leaves.2.1 _ _ _ _ _ (.arr [.bool true]) rfl rfl,
    load_classifies_json_and_obfuscation_rewrites_leaves.2.2 _ _⟩

/-- Claim C5: every per-request failure maps to a terminal status (the
embedded pipeline and handler are total functions, so no failure escapes):
a transport timeout gives 504; a non-timeout transport error gives 502; an
unreadable content-type header gives 502; a content-type that is neither
"text/html" nor "application/json" gives 502; a body-read failure gives 502
in every classification branch; a parse or serialize failure during
transformation gives 500. -/
theorem per_request_failure_status_mapping :
    load .timeout = .special 504 ∧
    load .failed = .special 502 ∧
    (∀ r : UpstreamResp, r.content_type = .invalid → load (.success r) = .special 502) ∧
    (∀ (r : UpstreamResp) (v : String), r.content_type = .value v →
      str_starts_with v "text/html" = false →
      str_starts_with v "application/json" = false →
      load (.success r) = .special 502) ∧
    (∀ r : UpstreamResp, r.body = none → load (.success r) = .special 502) ∧
    (∀ (status : Nat) (ct : ContentTypeTag) (b : String),
      handler_status (.forward status ct b) none = 500) := by
  refine ⟨rfl, rfl, ?_, ?_, ?_, ?_⟩
  · rintro ⟨status, ct, bd⟩ hct
    simp only at hct
    subst hct
    rfl
  · rintro ⟨status, ct, bd⟩ v hct hhtml hjson
    simp only at hct
    subst hct
    simp [load, hhtml, hjson]
  · rintro ⟨status, ct, bd⟩ hbd
    simp only at hbd
    subst hbd
    cases ct with
    | missing => rfl
    | invalid => rfl
    | value v =>
      simp only [load]
      split
      · rfl
      · split
        · rfl
        · rfl
  · intro status ct b
    rfl

/-- Witness for C5 at concrete inputs: an unreadable header, an
"application/xml" content-type and a failed body read each give 502, and a
failed transformation of a forwarded body gives 500. -/
theorem per_request_failure_status_mapping_witness :
    load (.success ⟨200, .invalid, some "x"⟩) = .special 502 ∧
    load (.success ⟨200, .value "application/xml", some "x"⟩) = .special 502 ∧
    load (.success ⟨200, .missing, none⟩) = .special 502 ∧
    handler_status (.forward 200 .html "x") none = 500 := by
  exact ⟨per_request_failure_status_mapping.2.2.1 _ rfl,
    per_request_failure_status_mapping.2.2.2.1 _ "application/xml" rfl rfl rfl,
    per_request_failure_status_mapping.2.2.2.2.1 _ rfl,
    per_request_failure_status_mapping.2.2.2.2.2 200 .html "x"⟩

/- ===== The rcdom document tree ===== -/

/- markup5ever_rcdom nodes, reduced to what the walkers read: Element (tag
   name, attribute list in serialization order, ordered children), Text, and
   every other node kind (Document, Comment, Doctype, PI) as `other` with its
   ordered children. -/
inductive HNode where
  | elem (tag : String) (attrs : List (String × String)) (children : List HNode)
  | text (s : String)
  | other (children : List HNode)

/- The find_attr closures of src/src/main.rs: first attribute with the given
   local name. -/
def find_attr (attrs : List (String × String)) (name : String) : Option String :=
  match attrs with
  | [] => none
  | (k, v) :: rest => if k = name then some v else find_attr rest name

/- IGNORE_OBFUSCATION_TAGS (src/src/main.rs line 28). -/
def IGNORE_OBFUSCATION_TAGS : List String :=
  ["script", "noscript", "style", "template", "iframe"]

/- The node-id exclusion test of obfuscate_content: an id attribute exists and
   its value is in the exclusion list. -/
def id_ignored (ignoreNodes : List String) (attrs : List (String × String)) : Bool :=
  match find_attr attrs "id" with
  | some v => ignoreNodes.contains v
  | none => false

/- The update_content closure inside obfuscate_content (src/src/main.rs lines
   305-315): if the given name-or-property value is in the meta-tag inclusion
   list and a content attribute exists, every attribute named "content" is set
   to the obfuscation of the first content value found. The text obfuscator
   (obfuscation::obfuscate_text with its random draws) is abstracted as
   `obfText`. -/
def meta_update_content (obfText : String → String) (metaTags : List String)
    (attrs : List (String × String)) (nameOrProp : String) : List (String × String) :=
  if metaTags.contains nameOrProp then
    match find_attr attrs "content" with
    | some content =>
      attrs.map (fun kv => if kv.1 = "content" then (kv.1, obfText content) else kv)
    | none => attrs
  else attrs

/- The meta branch of obfuscate_content: update_content is run for the "name"
   attribute value and then, on the already-updated attribute list, for the
   "property" attribute value (so when both match, content is obfuscated
   twice, exactly as the source's sequential closure calls do). -/
def meta_obfuscate (obfText : String → String) (metaTags : List String)
    (attrs : List (String × String)) : List (String × String) :=
  let a1 :=
    match find_attr attrs "name" with
    | some v => meta_update_content obfText metaTags attrs v
    | none => attrs
  match find_attr a1 "property" with
  | some v => meta_update_content obfText metaTags a1 v
  | none => a1

/- obfuscate_content (src/src/main.rs lines 274-335), per child: an element
   whose id is excluded, or whose tag is in IGNORE_OBFUSCATION_TAGS, is left
   untouched (whole subtree); a meta element gets its attributes passed
   through the meta branch and its children untouched; any other element and
   any non-element non-text node is recursed into; a text child is replaced by
   its obfuscation. -/
mutual

def obfuscate_child (obfText : String → String) (ignoreNodes metaTags : List String) :
    HNode → HNode
  | .elem t a cs =>
    if id_ignored ignoreNodes a then .elem t a cs
    else if IGNORE_OBFUSCATION_TAGS.contains t then .elem t a cs
    else if t = "meta" then .elem t (meta_obfuscate obfText metaTags a) cs
    else .elem t a (obfuscate_children obfText ignoreNodes metaTags cs)
  | .text s => .text (obfText s)
  | .other cs => .other (obfuscate_children obfText ignoreNodes metaTags cs)

def obfuscate_children (obfText : String → String) (ignoreNodes metaTags : List String) :
    List HNode → List HNode
  | [] => []
  | c :: cs =>
    obfuscate_child obfText ignoreNodes metaTags c ::
      obfuscate_children obfText ignoreNodes metaTags cs

end

/- obfuscate_content applied to a handle transforms the handle's children and
   leaves the handle itself alone. -/
def obfuscate_content (obfText : String → String) (ignoreNodes metaTags : List String) :
    HNode → HNode
  | .elem t a cs => .elem t a (obfuscate_children obfText ignoreNodes metaTags cs)
  | .text s => .text s
  | .other cs => .other (obfuscate_children obfText ignoreNodes metaTags cs)

/- ===== src/src/main.rs : the patch walker ===== -/

/- The child loop of replace_children (src/src/main.rs lines 243-269): the
   first element child whose first id attribute equals the target gets its
   children replaced and the scan of the remaining siblings at that level
   stops (the Rust `return`); any other child is recursed into and the scan
   continues. -/
def rc_list (target : String) (new : List HNode) : List HNode → List HNode
  | [] => []
  | .elem t a ccs :: cs =>
    if find_attr a "id" = some target then .elem t a new :: cs
    else .elem t a (rc_list target new ccs) :: rc_list target new cs
  | .text s :: cs => .text s :: rc_list target new cs
  | .other ccs :: cs => .other (rc_list target new ccs) :: rc_list target new cs

def replace_children (target : String) (new : List HNode) : HNode → HNode
  | .elem t a cs => .elem t a (rc_list target new cs)
  | .text s => .text s
  | .other cs => .other (rc_list target new cs)

/- remove_children(handle, id) = replace_children(handle, id, vec![]). -/
def remove_children (target : String) (n : HNode) : HNode :=
  replace_children target [] n

/- The retain closure of remove_meta_tags: a direct head child is dropped
   exactly when it is a meta element whose "name" or "property" attribute
   value is in the strip list. -/
def keep_head_child (tags : List String) : HNode → Bool
  | .elem t a _ =>
    if t = "meta" then
      !((match find_attr a "name" with
         | some v => tags.contains v
         | none => false) ||
        (match find_attr a "property" with
         | some v => tags.contains v
         | none => false))
    else true
  | _ => true

/- remove_meta_tags (src/src/main.rs lines 337-391): the children of every
   element named "head" are filtered by the retain closure (and not recursed
   into further); every other child is recursed into. -/
def rmt_list (tags : List String) : List HNode → List HNode
  | [] => []
  | .elem t a ccs :: cs =>
    if t = "head" then .elem t a (ccs.filter (keep_head_child tags)) :: rmt_list tags cs
    else .elem t a (rmt_list tags ccs) :: rmt_list tags cs
  | .text s :: cs => .text s :: rmt_list tags cs
  | .other ccs :: cs => .other (rmt_list tags ccs) :: rmt_list tags cs

def remove_meta_tags (tags : List String) : HNode → HNode
  | .elem t a cs => .elem t a (rmt_list tags cs)
  | .text s => .text s
  | .other cs => .other (rmt_list tags cs)

/- The Patch arm of patch_page (src/src/main.rs lines 206-232): replace the
   target's children with the extracted fragment content, then clear the
   children of each id in remove_nodes, then strip the listed meta tags; the
   steps run unconditionally in sequence. Fragment parsing and content
   extraction are upstream of this function; `newKids` is their result. -/
def patch_page_steps (t : HNode) (target : String) (newKids : List HNode)
    (removeIds : List String) (stripTags : List String) : HNode :=
  remove_meta_tags stripTags
    (removeIds.foldl (fun acc i => remove_children i acc)
      (replace_children target newKids t))

/- Whether any element in the tree (the node itself included) carries the
   given id as its first id attribute. -/
def has_id_list (target : String) : List HNode → Bool
  | [] => false
  | .elem _ a ccs :: cs =>
    (find_attr a "id" == some target) || has_id_list target ccs || has_id_list target cs
  | .text _ :: cs => has_id_list target cs
  | .other ccs :: cs => has_id_list target ccs || has_id_list target cs

def has_id (target : String) : HNode → Bool
  | .elem _ a cs => (find_attr a "id" == some target) || has_id_list target cs
  | .text _ => false
  | .other cs => has_id_list target cs

/- Whether a node is an element child that replace_children would match. -/
def is_match (target : String) : HNode → Bool
  | .elem _ a _ => find_attr a "id" == some target
  | _ => false

/- ===== src/src/html_ops.rs : find_meta_tags ===== -/

/- DOMOps::find_meta_tags (src/src/html_ops.rs lines 81-95): collect, in
   document order, every element named "meta" among the element descendants;
   non-element children are neither collected nor recursed into. -/
def fmt_list : List HNode → List HNode
  | [] => []
  | .elem t a ccs :: cs =>
    (if t = "meta" then [.elem t a ccs] else []) ++ fmt_list ccs ++ fmt_list cs
  | .text _ :: cs => fmt_list cs
  | .other _ :: cs => fmt_list cs

def find_meta_tags : HNode → List HNode
  | .elem _ _ cs => fmt_list cs
  | .text _ => []
  | .other cs => fmt_list cs

/- ===== Definitions modelled from the spec (code not under src/) ===== -/

/-- Modelled from the spec: the per-meta update of the inclusion-based meta
pass (spec section 4.5): inspect "name" then "property"; if either value is in
the configured meta-tag inclusion set, obfuscate the "content" attribute in
full mode in place. The pass itself belongs to the current obfuscation walker,
which is not under src/ (src/src/main.rs is an earlier revision; its helper
find_meta_tags and that helper's tests are in src/src/html_ops.rs). -/
def meta_update_spec (obfText : String → String) (metaTags : List String)
    (attrs : List (String × String)) : List (String × String) :=
  let matched :=
    (match find_attr attrs "name" with
     | some v => metaTags.contains v
     | none => false) ||
    (match find_attr attrs "property" with
     | some v => metaTags.contains v
     | none => false)
  if matched then
    attrs.map (fun kv => if kv.1 = "content" then (kv.1, obfText kv.2) else kv)
  else attrs

/-- Modelled from the spec: the document-wide inclusion-based meta pass (spec
section 4.5), decoupled from the exclusion-based walk: every element named
"meta", wherever it sits, gets its attributes passed through meta_update_spec;
nothing else changes. It takes no exclusion configuration at all. -/
def omt_list (obfText : String → String) (metaTags : List String) :
    List HNode → List HNode
  | [] => []
  | .elem t a ccs :: cs =>
    .elem t (if t = "meta" then meta_update_spec obfText metaTags a else a)
      (omt_list obfText metaTags ccs) :: omt_list obfText metaTags cs
  | .text s :: cs => .text s :: omt_list obfText metaTags cs
  | .other ccs :: cs => .other (omt_list obfText metaTags ccs) :: omt_list obfText metaTags cs

def obfuscate_meta_tags (obfText : String → String) (metaTags : List String) :
    HNode → HNode
  | .elem t a cs =>
    .elem t (if t = "meta" then meta_update_spec obfText metaTags a else a)
      (omt_list obfText metaTags cs)
  | .text s => .text s
  | .other cs => .other (omt_list obfText metaTags cs)

/-- Modelled from the spec: head-exempt text obfuscation (spec section 4.2),
absent from src/ (src/src/main.rs is an earlier revision, though src/src/vars.rs
declares the MIRAGEND_OBFUSCATION_IGNORE_AFTER_NODE / _IGNORE_LEN settings it
consumes). Scanning left to right: while the remaining budget is positive, a
non-whitespace character passes through unmodified and decrements the budget
and a whitespace character passes through without consuming budget; once the
budget reaches 0 every following character goes through the codec. Returns the
output together with the updated budget. The whitespace test is abstracted as
`ws`. -/
def obfuscate_head_exempt (codec : Char → Char) (ws : Char → Bool) :
    List Char → Nat → List Char × Nat
  | cs, 0 => (cs.map codec, 0)
  | [], n + 1 => ([], n + 1)
  | c :: cs, n + 1 =>
    if ws c then
      let r := obfuscate_head_exempt codec ws cs (n + 1)
      (c :: r.1, r.2)
    else
      let r := obfuscate_head_exempt codec ws cs n
      (c :: r.1, r.2)

/-- Modelled from the spec: the zone/budget behavior of the current HTML
obfuscation walker (spec section 4.5), absent from src/. The walker processes
a sibling list in document order carrying the preserve-budget zone flag and
the shared remaining budget: an element whose id is in the exclusion set is
skipped whole; otherwise an element whose id equals the "start preserving
after" id flips the zone flag to true for all subsequent document order (never
reset); an element whose tag is in the always-skip set is skipped whole; other
elements are recursed into with the current state; a text node is obfuscated
in head-exempt mode while the zone is active (head-exempt mode with an
exhausted budget coincides with full mode) and in full mode otherwise. The
orthogonal title-exemption flag is modelled with "ignore title" disabled. -/
def walk_obfuscate (codec : Char → Char) (ws : Char → Bool) (afterId : String)
    (ignoreIds skipTags : List String) :
    List HNode → Bool → Nat → List HNode × Bool × Nat
  | [], z, n => ([], z, n)
  | .text s :: rest, z, n =>
    let p := if z then obfuscate_head_exempt codec ws s.data n else (s.data.map codec, n)
    let q := walk_obfuscate codec ws afterId ignoreIds skipTags rest z p.2
    (.text (String.mk p.1) :: q.1, q.2)
  | .elem t a cs :: rest, z, n =>
    if id_ignored ignoreIds a then
      let q := walk_obfuscate codec ws afterId ignoreIds skipTags rest z n
      (.elem t a cs :: q.1, q.2)
    else
      let z1 := z || (find_attr a "id" == some afterId)
      if skipTags.contains t then
        let q := walk_obfuscate codec ws afterId ignoreIds skipTags rest z1 n
        (.elem t a cs :: q.1, q.2)
      else
        let p := walk_obfuscate codec ws afterId ignoreIds skipTags cs z1 n
        let q := walk_obfuscate codec ws afterId ignoreIds skipTags rest p.2.1 p.2.2
        (.elem t a p.1 :: q.1, q.2)
  | .other cs :: rest, z, n =>
    let p := walk_obfuscate codec ws afterId ignoreIds skipTags cs z n
    let q := walk_obfuscate codec ws afterId ignoreIds skipTags rest p.2.1 p.2.2
    (.other p.1 :: q.1, q.2)

/- ===== Claims about the HTML walkers ===== -/

/-- Claim C8: the obfuscation walker leaves the whole subtree of an element
unchanged when the element's tag is in the always-skip set (script, noscript,
style, template, iframe) or its id attribute value is in the configured
node-id exclusion set: the child is returned exactly as it was, so no text
node and no attribute anywhere below it is modified. -/
theorem obfuscate_child_skips_excluded_subtrees
    (obfText : String → String) (ignoreNodes metaTags : List String)
    (t : String) (a : List (String × String)) (cs : List HNode)
    (h : (∃ v, find_attr a "id" = some v ∧ ignoreNodes.contains v = true) ∨
      IGNORE_OBFUSCATION_TAGS.contains t = true) :
    obfuscate_child obfText ignoreNodes metaTags (.elem t a cs) = .elem t a cs := by
  rcases h with ⟨v, hv, hmem⟩ | htag
  · have hmem2 : v ∈ ignoreNodes := by simpa using hmem
    simp [obfuscate_child, id_ignored, hv, hmem2]
  · have htag2 : t ∈ IGNORE_OBFUSCATION_TAGS := by simpa using htag
    by_cases hid : id_ignored ignoreNodes a
    · simp [obfuscate_child, hid]
    · simp [obfuscate_child, hid, htag2]

/-- Witness for C8 at concrete inputs: a script element and an element with an
excluded id keep their subtrees (text and attributes) untouched. -/
theorem obfuscate_child_skips_excluded_subtrees_witness :
    obfuscate_child (fun _ => "Z") [] ["description"]
        (.elem "script" [("src", "app.js")] [.text "secret"]) =
      .elem "script" [("src", "app.js")] [.text "secret"] ∧
    obfuscate_child (fun _ => "Z") ["keep"] []
        (.elem "div" [("id", "keep")] [.text "secret"]) =
      .elem "div" [("id", "keep")] [.text "secret"] := by
  exact ⟨obfuscate_child_skips_excluded_subtrees _ _ _ _ _ _ (Or.inr (by decide)),
    obfuscate_child_skips_excluded_subtrees _ _ _ _ _ _
      (Or.inl ⟨"keep", by simp [find_attr], by simp⟩)⟩

/- If no element in a sibling forest carries the target id, the
replace_children scan leaves the forest exactly as it was. -/
theorem rc_list_absent (target : String) (new : List HNode) :
    ∀ cs, has_id_list target cs = false → rc_list target new cs = cs := by
  intro cs
  induction cs using rc_list.induct target new with
  | case1 => intro _; simp [rc_list]
  | case2 t a ccs cs hfind =>
    intro h
    simp [has_id_list, hfind] at h
  | case3 t a ccs cs hfind ih1 ih2 =>
    intro h
    simp only [has_id_list, Bool.or_eq_false_iff] at h
    simp [rc_list, hfind, ih1 h.1.2, ih2 h.2]
  | case4 s cs ih =>
    intro h
    simp only [has_id_list] at h
    simp [rc_list, ih h]
  | case5 ccs cs ih1 ih2 =>
    intro h
    simp only [has_id_list, Bool.or_eq_false_iff] at h
    simp [rc_list, ih1 h.1, ih2 h.2]

theorem replace_children_absent (target : String) (new : List HNode) (n : HNode)
    (h : has_id target n = false) : replace_children target new n = n := by
  cases n with
  | elem t a cs =>
    simp only [has_id, Bool.or_eq_false_iff] at h
    simp [replace_children, rc_list_absent target new cs h.2]
  | text s => rfl
  | other cs =>
    simp only [has_id] at h
    simp [replace_children, rc_list_absent target new cs h]

/- The clearing scan on a sibling list whose earlier siblings do not match:
the first matching element keeps its tag and attributes, its children are
replaced by the empty list, the earlier siblings are recursed into and the
later siblings are left untouched (the Rust `return`). -/
theorem rc_list_clears_first_match (target : String) (t : String)
    (a : List (String × String)) :
    ∀ (pre : List HNode), (∀ x ∈ pre, is_match target x = false) →
      ∀ (post ccs : List HNode), find_attr a "id" = some target →
      rc_list target [] (pre ++ .elem t a ccs :: post) =
        pre.map (replace_children target []) ++ .elem t a [] :: post := by
  intro pre
  induction pre with
  | nil =>
    intro _ post ccs hmatch
    simp [rc_list, hmatch]
  | cons x xs ih =>
    intro hpre post ccs hmatch
    have hx := hpre x (by simp)
    have hxs : ∀ y ∈ xs, is_match target y = false := fun y hy => hpre y (by simp [hy])
    cases x with
    | elem xt xa xcs =>
      have hne : ¬ find_attr xa "id" = some target := by
        simpa [is_match] using hx
      simp [rc_list, hne, ih hxs post ccs hmatch, replace_children]
    | text s => simp [rc_list, ih hxs post ccs hmatch, replace_children]
    | other occs => simp [rc_list, ih hxs post ccs hmatch, replace_children]

/-- Claim C9: the patch walker is best-effort with independent steps: when the
target id is absent from the tree, replace_children changes nothing; the
delete scan clears the children of the matching element while the node itself
(tag and attributes) stays in place and later siblings are untouched; and with
an absent replacement target the patch pipeline still performs the delete and
meta-strip steps exactly as it would on the untouched tree, so a missing
target never aborts the remaining steps. -/
theorem patch_steps_best_effort :
    (∀ (target : String) (new : List HNode) (n : HNode),
      has_id target n = false → replace_children target new n = n) ∧
    (∀ (target t : String) (a : List (String × String))
      (pre post ccs : List HNode),
      (∀ x ∈ pre, is_match target x = false) →
      find_attr a "id" = some target →
      rc_list target [] (pre ++ .elem t a ccs :: post) =
        pre.map (replace_children target []) ++ .elem t a [] :: post) ∧
    (∀ (n : HNode) (target : String) (new : List HNode)
      (removeIds stripTags : List String),
      has_id target n = false →
      patch_page_steps n target new removeIds stripTags =
        remove_meta_tags stripTags
          (removeIds.foldl (fun acc i => remove_children i acc) n)) := by
  refine ⟨replace_children_absent, ?_, ?_⟩
  · intro target t a pre post ccs hpre hmatch
    exact rc_list_clears_first_match target t a pre hpre post ccs hmatch
  · intro n target new removeIds stripTags h
    unfold patch_page_steps
    rw [replace_children_absent target new n h]

/-- Witness for C9 at concrete inputs: replacing at the absent id "x" leaves
the document unchanged; deleting at id "d" empties that div but keeps the node
and its attributes; and the patch pipeline with the absent target "x" equals
the pipeline without the replacement step. -/
theorem patch_steps_best_effort_witness :
    replace_children "x" [.text "new"] (.elem "div" [("id", "y")] [.text "old"]) =
      .elem "div" [("id", "y")] [.text "old"] ∧
    rc_list "d" [] [.text "lead", .elem "div" [("id", "d"), ("class", "c")] [.text "old"],
        .text "tail"] =
      [.text "lead", .elem "div" [("id", "d"), ("class", "c")] [], .text "tail"] ∧
    patch_page_steps (.elem "div" [("id", "y")] []) "x" [.text "new"] ["y"] [] =
      remove_meta_tags [] (["y"].foldl (fun acc i => remove_children i acc)
        (.elem "div" [("id", "y")] [])) := by
  refine ⟨patch_steps_best_effort.1 "x" _ _ (by simp [has_id, has_id_list, find_attr]), ?_, ?_⟩
  · have h := patch_steps_best_effort.2.1 "d" "div" [("id", "d"), ("class", "c")]
      [.text "lead"] [.text "tail"] [.text "old"] (by simp [is_match])
      (by simp [find_attr])
    simpa [replace_children] using h
  · exact patch_steps_best_effort.2.2 _ "x" _ _ _ (by simp [has_id, has_id_list, find_attr])

/- Looking up "content" after mapping every content attribute through the
obfuscator returns the obfuscation of the original lookup. -/
theorem find_attr_content_map (obfText : String → String) :
    ∀ attrs : List (String × String),
      find_attr (attrs.map (fun kv =>
          if kv.1 = "content" then (kv.1, obfText kv.2) else kv)) "content" =
        (find_attr attrs "content").map obfText := by
  intro attrs
  induction attrs with
  | nil => rfl
  | cons kv rest ih =>
    obtain ⟨k, v⟩ := kv
    by_cases hk : k = "content"
    · subst hk
      simp [find_attr]
    · simp only [List.map]
      rw [if_neg (by simpa using hk)]
      simp [find_attr, hk, ih]

/- When the name-or-property inclusion test holds, meta_update_spec maps the
content attribute value through the obfuscator. -/
theorem meta_update_spec_matched (obfText : String → String) (metaTags : List String)
    (attrs : List (String × String))
    (h : ((match find_attr attrs "name" with
           | some v => metaTags.contains v
           | none => false) ||
          (match find_attr attrs "property" with
           | some v => metaTags.contains v
           | none => false)) = true) :
    find_attr (meta_update_spec obfText metaTags attrs) "content" =
      (find_attr attrs "content").map obfText := by
  simp only [meta_update_spec, h, if_true]
  exact find_attr_content_map obfText attrs

/- The meta pass commutes with meta collection: the metas of the rewritten
forest are exactly the rewritten metas of the original forest, in document
order. -/
theorem fmt_omt_commute (obfText : String → String) (metaTags : List String) :
    ∀ cs, fmt_list (omt_list obfText metaTags cs) =
      (fmt_list cs).map (obfuscate_meta_tags obfText metaTags) := by
  intro cs
  induction cs using omt_list.induct obfText metaTags with
  | case1 => simp [omt_list, fmt_list]
  | case2 t a ccs cs ih1 ih2 =>
    by_cases ht : t = "meta" <;>
      simp [omt_list, fmt_list, obfuscate_meta_tags, ht, ih1, ih2]
  | case3 s cs ih => simp [omt_list, fmt_list, ih]
  | case4 ccs cs ih1 ih2 => simp [omt_list, fmt_list, ih2]

/-- Claim C4: the inclusion-based meta pass is decoupled from the
exclusion-based walk (it takes no exclusion configuration at all) and reaches
every meta element in the document: collecting metas after the pass yields
exactly the updated versions of every meta find_meta_tags sees, in document
order; a meta inside an arbitrary wrapper element — in particular one whose
tag is in the always-skip set or whose id is in the exclusion set — is still
updated; and whenever the meta's "name" or "property" attribute value is in
the inclusion list, its "content" attribute value is obfuscated in place in
full mode. -/
theorem meta_pass_reaches_every_meta :
    (∀ (obfText : String → String) (metaTags : List String) (n : HNode),
      find_meta_tags (obfuscate_meta_tags obfText metaTags n) =
        (find_meta_tags n).map (obfuscate_meta_tags obfText metaTags)) ∧
    (∀ (obfText : String → String) (metaTags : List String)
      (wrapTag : String) (wrapAttrs mattrs : List (String × String)),
      wrapTag ≠ "meta" →
      obfuscate_meta_tags obfText metaTags
          (.elem wrapTag wrapAttrs [.elem "meta" mattrs []]) =
        .elem wrapTag wrapAttrs
          [.elem "meta" (meta_update_spec obfText metaTags mattrs) []]) ∧
    (∀ (obfText : String → String) (metaTags : List String)
      (attrs : List (String × String)) (v : String),
      (find_attr attrs "name" = some v ∨ find_attr attrs "property" = some v) →
      metaTags.contains v = true →
      find_attr (meta_update_spec obfText metaTags attrs) "content" =
        (find_attr attrs "content").map obfText) := by
  refine ⟨?_, ?_, ?_⟩
  · intro obfText metaTags n
    cases n with
    | elem t a cs => simpa [obfuscate_meta_tags, find_meta_tags]
        using fmt_omt_commute obfText metaTags cs
    | text s => rfl
    | other cs => simpa [obfuscate_meta_tags, find_meta_tags]
        using fmt_omt_commute obfText metaTags cs
  · intro obfText metaTags wrapTag wrapAttrs mattrs hw
    simp [obfuscate_meta_tags, omt_list, hw]
  · intro obfText metaTags attrs v h hmem
    apply meta_update_spec_matched
    have hv : v ∈ metaTags := by simpa using hmem
    rcases h with h1 | h1
    · simp [h1, hv]
    · simp [h1, hv]

/-- Witness for C4 at concrete inputs: a meta with name "description" nested
inside a script wrapper with an excluded-looking id is still rewritten by the
pass, and its content value "A" becomes the obfuscation of "A". -/
theorem meta_pass_reaches_every_meta_witness :
    find_meta_tags (obfuscate_meta_tags (fun _ => "Z") ["description"]
        (.other [.elem "meta" [("name", "description"), ("content", "A")] []])) =
      (find_meta_tags
        (.other [.elem "meta" [("name", "description"), ("content", "A")] []])).map
        (obfuscate_meta_tags (fun _ => "Z") ["description"]) ∧
    obfuscate_meta_tags (fun _ => "Z") ["description"]
        (.elem "script" [("id", "x")]
          [.elem "meta" [("name", "description"), ("content", "A")] []]) =
      .elem "script" [("id", "x")]
        [.elem "meta" (meta_update_spec (fun _ => "Z") ["description"]
          [("name", "description"), ("content", "A")]) []] ∧
    find_attr (meta_update_spec (fun _ => "Z") ["description"]
        [("name", "description"), ("content", "A")]) "content" =
      (find_attr [("name", "description"), ("content", "A")] "content").map
        (fun _ => "Z") := by
  exact ⟨meta_pass_reaches_every_meta.1 _ _ _,
    meta_pass_reaches_every_meta.2.1 _ _ _ _ _ (by decide),
    meta_pass_reaches_every_meta.2.2 _ _ _ "description"
      (Or.inl (by simp [find_attr])) (by simp)⟩

/-- Claim C1: head-exempt obfuscation scans left to right — with the budget
exhausted every following character (whitespace included) goes through the
codec; with a positive budget a non-whitespace character passes through
unmodified and decrements the shared budget while a whitespace character
passes through without consuming budget — and once the walker meets the
element whose id equals the configured "start preserving after" id, the zone
flag flips to true and stays true, so the following text nodes in document
order are processed in head-exempt mode with the one budget threaded from each
text node to the next. -/
theorem walker_preserve_budget_after_node :
    (∀ (codec : Char → Char) (ws : Char → Bool) (cs : List Char),
      obfuscate_head_exempt codec ws cs 0 = (cs.map codec, 0)) ∧
    (∀ (codec : Char → Char) (ws : Char → Bool) (c : Char) (cs : List Char) (n : Nat),
      0 < n → ws c = false →
      obfuscate_head_exempt codec ws (c :: cs) n =
        (c :: (obfuscate_head_exempt codec ws cs (n - 1)).1,
          (obfuscate_head_exempt codec ws cs (n - 1)).2)) ∧
    (∀ (codec : Char → Char) (ws : Char → Bool) (c : Char) (cs : List Char) (n : Nat),
      0 < n → ws c = true →
      obfuscate_head_exempt codec ws (c :: cs) n =
        (c :: (obfuscate_head_exempt codec ws cs n).1,
          (obfuscate_head_exempt codec ws cs n).2)) ∧
    (∀ (codec : Char → Char) (ws : Char → Bool) (afterId : String)
      (ignoreIds skipTags : List String) (t : String) (a : List (String × String))
      (s1 s2 : String) (n : Nat),
      id_ignored ignoreIds a = false →
      find_attr a "id" = some afterId →
      skipTags.contains t = false →
      walk_obfuscate codec ws afterId ignoreIds skipTags
          [.elem t a [], .text s1, .text s2] false n =
        ([.elem t a [],
          .text (String.mk (obfuscate_head_exempt codec ws s1.data n).1),
          .text (String.mk (obfuscate_head_exempt codec ws s2.data
            (obfuscate_head_exempt codec ws s1.data n).2).1)],
         true,
         (obfuscate_head_exempt codec ws s2.data
           (obfuscate_head_exempt codec ws s1.data n).2).2)) := by
  refine ⟨?_, ?_, ?_, ?_⟩
  · intro codec ws cs
    cases cs <;> rfl
  · intro codec ws c cs n hn hws
    obtain ⟨m, rfl⟩ := Nat.exists_eq_add_of_lt hn
    simp [obfuscate_head_exempt, hws]
  · intro codec ws c cs n hn hws
    obtain ⟨m, rfl⟩ := Nat.exists_eq_add_of_lt hn
    simp [obfuscate_head_exempt, hws]
  · intro codec ws afterId ignoreIds skipTags t a s1 s2 n hid hfind hskip
    simp [walk_obfuscate, hid, hfind, hskip]

/-- Witness for C1 at concrete inputs: with budget 1 the non-whitespace 'a'
passes and decrements the budget; a space passes without consuming budget;
with budget 0 everything is coded; and after the trigger element with id "go"
the two text nodes "ab" and "cd" share the budget 1: 'a' is preserved, then
the exhausted budget codes the rest across both nodes. -/
theorem walker_preserve_budget_after_node_witness :
    obfuscate_head_exempt (fun _ => '#') (fun c => c == ' ') ['a', 'b'] 1 =
      (['a', '#'], 0) ∧
    obfuscate_head_exempt (fun _ => '#') (fun c => c == ' ') [' ', 'b'] 1 =
      ([' ', 'b'], 0) ∧
    obfuscate_head_exempt (fun _ => '#') (fun c => c == ' ') ['a', 'b'] 0 =
      (['#', '#'], 0) ∧
    walk_obfuscate (fun _ => '#') (fun c => c == ' ') "go" [] []
        [.elem "div" [("id", "go")] [], .text "ab", .text "cd"] false 1 =
      ([.elem "div" [("id", "go")] [], .text "a#", .text "##"], true, 0) := by
  refine ⟨?_, ?_, ?_, ?_⟩
  · have h := walker_preserve_budget_after_node.2.1 (fun _ => '#') (fun c => c == ' ')
      'a' ['b'] 1 (by decide) (by decide)
    exact h.trans (by rfl)
  · have h := walker_preserve_budget_after_node.2.2.1 (fun _ => '#') (fun c => c == ' ')
      ' ' ['b'] 1 (by decide) (by decide)
    exact h.trans (by rfl)
  · exact (walker_preserve_budget_after_node.1 (fun _ => '#') (fun c => c == ' ')
      ['a', 'b']).trans (by rfl)
  · have h := walker_preserve_budget_after_node.2.2.2 (fun _ => '#') (fun c => c == ' ')
      "go" [] [] "div" [("id", "go")] "ab" "cd" 1 rfl (by simp [find_attr]) rfl
    exact h.trans (by rfl)

/- ===== src/src/main.rs : load_patch_html ===== -/

/- The plain-text fallback shaping (src/src/main.rs lines 437-439):
   text.lines().fold(String::new(), |acc, line| format!("{}\n<p>{}</p>", acc, line)). -/
def wrap_paragraphs (ls : List String) : String :=
  ls.foldl (fun acc line => acc ++ "\n<p>" ++ line ++ "</p>") ""

/- Models str::ends_with character by character. -/
def str_ends_with (s suf : String) : Bool :=
  starts_with_chars s.data.reverse suf.data.reverse

/- load_patch_html (src/src/main.rs lines 419-441). External collaborators are
   parameters: `fs` models std::fs::read_to_string (none is any read failure:
   missing, unreadable, not UTF-8), `md2html` models comrak::markdown_to_html,
   `lines` models str::lines, and `fbMd` / `fbHtml` stand for the include_str
   constants FALLBACK_PATCH_MARKDOWN / FALLBACK_PATCH_HTML (main.rs lines
   25-26; the bundled files are data, not code). -/
def load_patch_html (fs : String → Option String) (md2html : String → String)
    (lines : String → List String) (fbMd fbHtml : String) (path : String) : String :=
  if path = "" then md2html fbMd
  else if str_ends_with path ".md" then md2html ((fs path).getD fbMd)
  else if str_ends_with path ".html" then (fs path).getD fbHtml
  else wrap_paragraphs (lines ((fs path).getD "Hello from Miragend!"))

/-- Claim C10: load_patch_html is total over the file system's responses (a
total function of the read outcome, so it returns a string and never errors):
an empty path gives the built-in Markdown rendered to HTML; an unreadable .md
path falls back to the built-in Markdown rendered to HTML; an unreadable
.html path falls back to the built-in HTML; and any other unreadable path
falls back to the default text wrapped one paragraph per line. -/
theorem load_patch_html_fallbacks
    (fs : String → Option String) (md2html : String → String)
    (lines : String → List String) (fbMd fbHtml : String) (path : String) :
    (path = "" → load_patch_html fs md2html lines fbMd fbHtml path = md2html fbMd) ∧
    (fs path = none → path ≠ "" → str_ends_with path ".md" = true →
      load_patch_html fs md2html lines fbMd fbHtml path = md2html fbMd) ∧
    (fs path = none → path ≠ "" → str_ends_with path ".md" = false →
      str_ends_with path ".html" = true →
      load_patch_html fs md2html lines fbMd fbHtml path = fbHtml) ∧
    (fs path = none → path ≠ "" → str_ends_with path ".md" = false →
      str_ends_with path ".html" = false →
      load_patch_html fs md2html lines fbMd fbHtml path =
        wrap_paragraphs (lines "Hello from Miragend!")) := by
  refine ⟨?_, ?_, ?_, ?_⟩
  · intro h
    simp [load_patch_html, h]
  · intro hfs hp hmd
    simp [load_patch_html, hfs, hp, hmd]
  · intro hfs hp hmd hhtml
    simp [load_patch_html, hfs, hp, hmd, hhtml]
  · intro hfs hp hmd hhtml
    simp [load_patch_html, hfs, hp, hmd, hhtml]

/-- Witness for C10 with a file system that fails every read: the empty path
and "p.md" give the rendered built-in Markdown, "p.html" gives the built-in
HTML, and "p.txt" gives the wrapped default text. -/
theorem load_patch_html_fallbacks_witness :
    load_patch_html (fun _ => none) (fun s => s ++ "!") (fun s => [s]) "M" "H" "" = "M!" ∧
    load_patch_html (fun _ => none) (fun s => s ++ "!") (fun s => [s]) "M" "H" "p.md" = "M!" ∧
    load_patch_html (fun _ => none) (fun s => s ++ "!") (fun s => [s]) "M" "H" "p.html" = "H" ∧
    load_patch_html (fun _ => none) (fun s => s ++ "!") (fun s => [s]) "M" "H" "p.txt" =
      wrap_paragraphs ["Hello from Miragend!"] := by
  refine ⟨?_, ?_, ?_, ?_⟩
  · exact (load_patch_html_fallbacks _ _ _ _ _ "").1 rfl
  · exact (load_patch_html_fallbacks _ _ _ _ _ "p.md").2.1 rfl (by decide) (by decide)
  · exact (load_patch_html_fallbacks _ _ _ _ _ "p.html").2.2.1 rfl (by decide) (by decide)
      (by decide)
  · exact (load_patch_html_fallbacks _ _ _ _ _ "p.txt").2.2.2 rfl (by decide) (by decide)
      (by decide)
